import Mathlib

/-!
Verification of the core data pipeline of the MF-Analyzer-App
(`src/data_loader.py`): column-name sanitization, snapshot tagging,
append-only persistence, parameterized query construction, latest-snapshot
query semantics and category aggregation.

Each definition is a shallow embedding of the corresponding Python code;
line references point into `src/data_loader.py`.
-/

namespace MFAnalyzer

/-! ## Column Normalizer

`load_mutual_fund_data_from_excel`, lines 48-51:

    df.columns = df.columns.str.replace(r'[^A-Za-z0-9_]+', '_', regex=True)
                 .str.replace(r'_+', '_', regex=True).str.strip('_')

Three passes over each header string: replace every maximal run of
characters outside `[A-Za-z0-9_]` by one underscore, collapse runs of
underscores, strip leading and trailing underscores.
-/

/-- A character matched by the regex class `[A-Za-z0-9_]`. -/
def isWordChar (c : Char) : Bool :=
  ('A' ≤ c && c ≤ 'Z') || ('a' ≤ c && c ≤ 'z') || ('0' ≤ c && c ≤ '9') || c == '_'

/-- First pass, `str.replace(r'[^A-Za-z0-9_]+', '_')`: each maximal run of
non-word characters becomes a single `'_'`.  The flag records whether the
previous character belonged to a non-word run. -/
def replaceNonWordRuns : List Char → Bool → List Char
  | [], _ => []
  | c :: cs, prevBad =>
    if isWordChar c then c :: replaceNonWordRuns cs false
    else if prevBad then replaceNonWordRuns cs true
    else '_' :: replaceNonWordRuns cs true

/-- Second pass, `str.replace(r'_+', '_')`: each run of underscores becomes a
single `'_'`.  The flag records whether the previous character was an
underscore. -/
def collapseUnderscoreRuns : List Char → Bool → List Char
  | [], _ => []
  | c :: cs, prevU =>
    if c == '_' then
      if prevU then collapseUnderscoreRuns cs true
      else '_' :: collapseUnderscoreRuns cs true
    else c :: collapseUnderscoreRuns cs false

/-- Remove trailing underscores (the right half of `str.strip('_')`). -/
def dropTrailingUnderscores (l : List Char) : List Char :=
  (l.reverse.dropWhile (fun c => c == '_')).reverse

/-- Third pass, `str.strip('_')`: remove leading and trailing underscores. -/
def stripUnderscores (l : List Char) : List Char :=
  dropTrailingUnderscores (l.dropWhile (fun c => c == '_'))

/-- The full column-name sanitization applied to one raw header string
(lines 50).  -/
def cleanColumnName (s : String) : String :=
  String.mk (stripUnderscores (collapseUnderscoreRuns (replaceNonWordRuns s.data false) false))

/-- The sanitization is applied to the whole header row at once
(`df.columns.str.replace ...` is element-wise over the column sequence). -/
def cleanColumns (headers : List String) : List String :=
  headers.map cleanColumnName

/-- No two adjacent characters are both underscores. -/
def noAdjacentUnderscores (l : List Char) : Prop :=
  List.Chain' (fun a b => a ≠ '_' ∨ b ≠ '_') l

/-- A sanitized identifier: only characters from `[A-Za-z0-9_]`, no doubled
underscore, no leading underscore, no trailing underscore. -/
def goodIdentifier (s : String) : Prop :=
  (∀ c ∈ s.data, isWordChar c = true) ∧ noAdjacentUnderscores s.data ∧
    s.data.head? ≠ some '_' ∧ s.data.getLast? ≠ some '_'

lemma mem_replaceNonWordRuns {c : Char} :
    ∀ {l : List Char} {b : Bool}, c ∈ replaceNonWordRuns l b → isWordChar c = true
  | [], b, h => by simp [replaceNonWordRuns] at h
  | d :: ds, b, h => by
    simp only [replaceNonWordRuns] at h
    split at h
    · rcases List.mem_cons.mp h with rfl | h
      · assumption
      · exact mem_replaceNonWordRuns h
    · split at h
      · exact mem_replaceNonWordRuns h
      · rcases List.mem_cons.mp h with rfl | h
        · decide
        · exact mem_replaceNonWordRuns h

lemma mem_collapseUnderscoreRuns {c : Char} :
    ∀ {l : List Char} {b : Bool}, c ∈ collapseUnderscoreRuns l b → c ∈ l ∨ c = '_'
  | [], b, h => by simp [collapseUnderscoreRuns] at h
  | d :: ds, b, h => by
    simp only [collapseUnderscoreRuns] at h
    split at h
    · split at h
      · rcases mem_collapseUnderscoreRuns h with h | h
        · exact Or.inl (List.mem_cons_of_mem _ h)
        · exact Or.inr h
      · rcases List.mem_cons.mp h with rfl | h
        · exact Or.inr rfl
        · rcases mem_collapseUnderscoreRuns h with h | h
          · exact Or.inl (List.mem_cons_of_mem _ h)
          · exact Or.inr h
    · rcases List.mem_cons.mp h with rfl | h
      · exact Or.inl (List.mem_cons_self _ _)
      · rcases mem_collapseUnderscoreRuns h with h | h
        · exact Or.inl (List.mem_cons_of_mem _ h)
        · exact Or.inr h

lemma mem_stripUnderscores {c : Char} {l : List Char} (h : c ∈ stripUnderscores l) : c ∈ l := by
  unfold stripUnderscores dropTrailingUnderscores at h
  rw [List.mem_reverse] at h
  have h2 := List.dropWhile_subset (p := fun c => c == '_') h
  rw [List.mem_reverse] at h2
  exact List.dropWhile_subset (p := fun c => c == '_') h2

lemma head?_dropWhile_ne {p : Char → Bool} {a : Char} :
    ∀ {l : List Char}, (l.dropWhile p).head? = some a → p a = false
  | [], h => by simp at h
  | c :: cs, h => by
    by_cases hc : p c
    · rw [List.dropWhile_cons_of_pos hc] at h
      exact head?_dropWhile_ne h
    · rw [List.dropWhile_cons_of_neg hc] at h
      simp only [List.head?_cons, Option.some.injEq] at h
      subst h
      simpa using hc

lemma dropTrailingUnderscores_isPre (l : List Char) : dropTrailingUnderscores l <+: l := by
  unfold dropTrailingUnderscores
  have h := List.reverse_prefix.mpr (List.dropWhile_suffix (l := l.reverse) (fun c => c == '_'))
  rwa [List.reverse_reverse] at h

lemma head?_of_isPre {s m : List Char} {a : Char} (hp : s <+: m) (h : s.head? = some a) :
    m.head? = some a := by
  obtain ⟨t, rfl⟩ := hp
  cases s with
  | nil => simp at h
  | cons x xs => simpa using h

lemma stripUnderscores_head?_ne (l : List Char) : (stripUnderscores l).head? ≠ some '_' := by
  intro h
  have h2 : ((l.dropWhile (fun c => c == '_')).head?) = some '_' :=
    head?_of_isPre (dropTrailingUnderscores_isPre _) h
  have h3 := head?_dropWhile_ne h2
  simp at h3

lemma stripUnderscores_getLast?_ne (l : List Char) :
    (stripUnderscores l).getLast? ≠ some '_' := by
  unfold stripUnderscores dropTrailingUnderscores
  intro h
  have hrev := List.head?_reverse
    (((l.dropWhile (fun c => c == '_')).reverse.dropWhile (fun c => c == '_')).reverse)
  rw [List.reverse_reverse] at hrev
  rw [← hrev] at h
  have h3 := head?_dropWhile_ne h
  simp at h3

lemma collapseUnderscoreRuns_head?_true :
    ∀ (l : List Char), (collapseUnderscoreRuns l true).head? ≠ some '_'
  | [] => by simp [collapseUnderscoreRuns]
  | c :: cs => by
    by_cases hc : c == '_'
    · simp only [collapseUnderscoreRuns]
      rw [if_pos hc, if_pos trivial]
      exact collapseUnderscoreRuns_head?_true cs
    · simp only [collapseUnderscoreRuns]
      rw [if_neg hc]
      simp only [List.head?_cons, ne_eq, Option.some.injEq]
      intro h
      subst h
      simp at hc

lemma chain'_collapseUnderscoreRuns :
    ∀ (l : List Char) (b : Bool), noAdjacentUnderscores (collapseUnderscoreRuns l b)
  | [], _ => by simp [collapseUnderscoreRuns, noAdjacentUnderscores]
  | c :: cs, b => by
    unfold noAdjacentUnderscores
    simp only [collapseUnderscoreRuns]
    split
    · split
      · exact chain'_collapseUnderscoreRuns cs true
      · rw [List.chain'_cons']
        refine ⟨?_, chain'_collapseUnderscoreRuns cs true⟩
        intro y hy
        right
        intro hy'
        subst hy'
        exact collapseUnderscoreRuns_head?_true cs hy
    · rw [List.chain'_cons']
      refine ⟨?_, chain'_collapseUnderscoreRuns cs false⟩
      intro y _
      left
      intro hc'
      subst hc'
      simp_all

lemma stripUnderscores_isInf (l : List Char) : stripUnderscores l <:+: l := by
  obtain ⟨post, hpost⟩ := dropTrailingUnderscores_isPre (l.dropWhile (fun c => c == '_'))
  obtain ⟨pre, hpre⟩ := List.dropWhile_suffix (l := l) (fun c => c == '_')
  refine ⟨pre, post, ?_⟩
  unfold stripUnderscores
  rw [List.append_assoc, hpost, hpre]

lemma noAdjacentUnderscores_stripUnderscores (l : List Char) (b : Bool) :
    noAdjacentUnderscores (stripUnderscores (collapseUnderscoreRuns l b)) :=
  List.Chain'.infix (chain'_collapseUnderscoreRuns l b) (stripUnderscores_isInf _)

lemma goodIdentifier_cleanColumnName (s : String) : goodIdentifier (cleanColumnName s) := by
  refine ⟨?_, ?_, ?_, ?_⟩
  · intro c hc
    have h1 := mem_stripUnderscores hc
    rcases mem_collapseUnderscoreRuns h1 with h2 | h2
    · exact mem_replaceNonWordRuns h2
    · subst h2
      decide
  · exact noAdjacentUnderscores_stripUnderscores _ _
  · exact stripUnderscores_head?_ne _
  · exact stripUnderscores_getLast?_ne _

lemma replaceNonWordRuns_of_word :
    ∀ {l : List Char}, (∀ c ∈ l, isWordChar c = true) → ∀ b, replaceNonWordRuns l b = l
  | [], _, b => by simp [replaceNonWordRuns]
  | c :: cs, h, b => by
    have hc : isWordChar c = true := h c (List.mem_cons_self _ _)
    simp only [replaceNonWordRuns, hc, if_true]
    rw [replaceNonWordRuns_of_word (fun d hd => h d (List.mem_cons_of_mem _ hd)) false]

lemma collapseUnderscoreRuns_of_chain' :
    ∀ {l : List Char}, noAdjacentUnderscores l →
      ∀ b, (b = true → l.head? ≠ some '_') → collapseUnderscoreRuns l b = l
  | [], _, b, _ => by simp [collapseUnderscoreRuns]
  | c :: cs, h, b, hb => by
    unfold noAdjacentUnderscores at h
    rw [List.chain'_cons'] at h
    by_cases hc : c == '_'
    · have hc' : c = '_' := by simpa using hc
      cases b with
      | true => exact absurd (by simp [hc']) (hb rfl)
      | false =>
        have hhd : cs.head? ≠ some '_' := by
          intro hhd
          rcases h.1 '_' (Option.mem_def.mpr hhd) with h3 | h3
          · exact h3 hc'
          · exact h3 rfl
        simp only [collapseUnderscoreRuns]
        rw [if_pos hc, if_neg (by simp),
          collapseUnderscoreRuns_of_chain' h.2 true (fun _ => hhd), hc']
    · simp only [collapseUnderscoreRuns]
      rw [if_neg hc, collapseUnderscoreRuns_of_chain' h.2 false (by simp)]

lemma dropWhile_underscore_eq_self {l : List Char} (h : l.head? ≠ some '_') :
    l.dropWhile (fun c => c == '_') = l := by
  cases l with
  | nil => rfl
  | cons c cs =>
    have hc : ¬((fun c => c == '_') c = true) := by
      simp only [List.head?_cons, ne_eq, Option.some.injEq] at h
      simpa using h
    exact List.dropWhile_cons_of_neg hc

lemma dropTrailingUnderscores_eq_self {l : List Char} (h : l.getLast? ≠ some '_') :
    dropTrailingUnderscores l = l := by
  unfold dropTrailingUnderscores
  have hh : l.reverse.head? ≠ some '_' := by
    rw [List.head?_reverse]
    exact h
  rw [dropWhile_underscore_eq_self hh, List.reverse_reverse]

lemma stripUnderscores_eq_self {l : List Char} (h1 : l.head? ≠ some '_')
    (h2 : l.getLast? ≠ some '_') : stripUnderscores l = l := by
  unfold stripUnderscores
  rw [dropWhile_underscore_eq_self h1, dropTrailingUnderscores_eq_self h2]

lemma cleanColumnName_of_good {s : String} (h : goodIdentifier s) : cleanColumnName s = s := by
  obtain ⟨hw, hch, hhd, hlast⟩ := h
  unfold cleanColumnName
  rw [replaceNonWordRuns_of_word hw false, collapseUnderscoreRuns_of_chain' hch false (by simp),
    stripUnderscores_eq_self hhd hlast]

/-- C3: Column normalization over a header row preserves length and order
(element `i` of the output is the sanitization of element `i` of the input),
and every produced identifier contains only characters from `[A-Za-z0-9_]`
and has no leading, trailing, or doubled underscore. -/
theorem cleanColumns_spec (headers : List String) :
    (cleanColumns headers).length = headers.length ∧
    (∀ i : Nat, (cleanColumns headers)[i]? = (headers[i]?).map cleanColumnName) ∧
    (∀ s ∈ cleanColumns headers, goodIdentifier s) := by
  refine ⟨List.length_map _ _, fun i => List.getElem?_map cleanColumnName headers i, ?_⟩
  intro s hs
  obtain ⟨x, _, rfl⟩ := List.mem_map.mp hs
  exact goodIdentifier_cleanColumnName x

/-- Witness for C3 at the concrete header row of the spec's scenario. -/
theorem cleanColumns_spec_witness :
    "Fund_Name" ∈ cleanColumns ["Fund Name", "AUM (Cr)", "NAV"] ∧ goodIdentifier "Fund_Name" :=
  ⟨by decide, (cleanColumns_spec ["Fund Name", "AUM (Cr)", "NAV"]).2.2 "Fund_Name" (by decide)⟩

/-- C4: The column normalizer is idempotent: sanitizing an
already-sanitized name returns it unchanged. -/
theorem cleanColumnName_idempotent (s : String) :
    cleanColumnName (cleanColumnName s) = cleanColumnName s :=
  cleanColumnName_of_good (goodIdentifier_cleanColumnName s)

/-! ## Data model

One stored fund record.  The table's claim-relevant columns are modelled;
the remaining spreadsheet-determined columns (`NAV`, `CAGR_3Y`, ...) play no
role in any claim and are carried by the record name only. -/

structure Row where
  name : String
  subCategory : String
  aum : ℚ
  expense : ℚ
  dateLoaded : String
  deriving DecidableEq

/-- Code-point-wise lexicographic `≤` on character lists: the order SQLite's
default BINARY collation gives `MAX(Date_Loaded)` on the ASCII timestamp
strings this program stores. -/
def lexLe : List Char → List Char → Bool
  | [], _ => true
  | _ :: _, [] => false
  | a :: as, b :: bs =>
    if a.toNat < b.toNat then true
    else if b.toNat < a.toNat then false
    else lexLe as bs

/-- Lexicographic `≤` on strings (BINARY collation). -/
def strLe (s t : String) : Bool := lexLe s.data t.data

lemma char_eq_of_toNat_eq {a b : Char} (h : a.toNat = b.toNat) : a = b := by
  cases a with
  | mk va ha =>
    cases b with
    | mk vb hb =>
      have hv : va = vb := UInt32.eq_of_val_eq (Fin.ext h)
      subst hv
      rfl

lemma lexLe_refl : ∀ (l : List Char), lexLe l l = true
  | [] => rfl
  | a :: as => by
    simp only [lexLe, lt_irrefl, if_false]
    exact lexLe_refl as

lemma lexLe_total : ∀ (x y : List Char), lexLe x y = true ∨ lexLe y x = true
  | [], _ => Or.inl rfl
  | _ :: _, [] => Or.inr rfl
  | a :: as, b :: bs => by
    rcases Nat.lt_trichotomy a.toNat b.toNat with h | h | h
    · left
      simp [lexLe, h]
    · simp only [lexLe, h, lt_irrefl, if_false]
      exact lexLe_total as bs
    · right
      simp [lexLe, h]

lemma lexLe_trans : ∀ {x y z : List Char},
    lexLe x y = true → lexLe y z = true → lexLe x z = true
  | [], _, _, _, _ => rfl
  | a :: as, [], _, h1, _ => by simp [lexLe] at h1
  | a :: as, b :: bs, [], _, h2 => by simp [lexLe] at h2
  | a :: as, b :: bs, c :: cs, h1, h2 => by
    simp only [lexLe] at h1 h2 ⊢
    rcases Nat.lt_trichotomy a.toNat b.toNat with hab | hab | hab
    · rcases Nat.lt_trichotomy b.toNat c.toNat with hbc | hbc | hbc
      · rw [if_pos (by omega)]
      · rw [if_pos (by omega)]
      · rw [if_pos hbc, if_neg (by omega)] at h2
        exact absurd h2 (by simp)
    · rcases Nat.lt_trichotomy b.toNat c.toNat with hbc | hbc | hbc
      · rw [if_pos (by omega)]
      · rw [if_neg (by omega), if_neg (by omega)] at h1
        rw [if_neg (by omega), if_neg (by omega)] at h2
        rw [if_neg (by omega), if_neg (by omega)]
        exact lexLe_trans h1 h2
      · rw [if_pos hbc, if_neg (by omega)] at h2
        exact absurd h2 (by simp)
    · rw [if_pos hab, if_neg (by omega)] at h1
      exact absurd h1 (by simp)

lemma lexLe_antisymm : ∀ {x y : List Char},
    lexLe x y = true → lexLe y x = true → x = y
  | [], [], _, _ => rfl
  | [], _ :: _, _, h2 => by simp [lexLe] at h2
  | _ :: _, [], h1, _ => by simp [lexLe] at h1
  | a :: as, b :: bs, h1, h2 => by
    simp only [lexLe] at h1 h2
    rcases Nat.lt_trichotomy a.toNat b.toNat with hab | hab | hab
    · rw [if_pos hab, if_neg (by omega)] at h2
      exact absurd h2 (by simp)
    · rw [if_neg (by omega), if_neg (by omega)] at h1
      rw [if_neg (by omega), if_neg (by omega)] at h2
      rw [char_eq_of_toNat_eq hab, lexLe_antisymm h1 h2]
    · rw [if_pos hab, if_neg (by omega)] at h1
      exact absurd h1 (by simp)

lemma strLe_refl (s : String) : strLe s s = true := lexLe_refl s.data

lemma strLe_total (s t : String) : strLe s t = true ∨ strLe t s = true := lexLe_total s.data t.data

lemma strLe_trans {s t u : String} (h1 : strLe s t = true) (h2 : strLe t u = true) :
    strLe s u = true := lexLe_trans h1 h2

lemma strLe_antisymm {s t : String} (h1 : strLe s t = true) (h2 : strLe t s = true) : s = t := by
  cases s with
  | mk ds =>
    cases t with
    | mk dt =>
      have : ds = dt := lexLe_antisymm h1 h2
      rw [this]

/-- The SQL aggregate `MAX` over a non-empty list of strings, folded exactly
as SQLite scans the rows. -/
def listMax (d : String) (l : List String) : String :=
  l.foldl (fun m x => if strLe m x then x else m) d

/-- `SELECT MAX(Date_Loaded) FROM mutual_funds`: `NULL` (`none`) on an empty
store, otherwise the BINARY-collation maximum of the `Date_Loaded` column. -/
def maxDateLoaded (store : List Row) : Option String :=
  match store.map (fun r => r.dateLoaded) with
  | [] => none
  | d :: ds => some (listMax d ds)

lemma listMax_cons (d x : String) (xs : List String) :
    listMax d (x :: xs) = listMax (if strLe d x then x else d) xs := rfl

lemma listMax_mem : ∀ (l : List String) (d : String), listMax d l = d ∨ listMax d l ∈ l
  | [], d => Or.inl rfl
  | x :: xs, d => by
    rw [listMax_cons]
    by_cases h : strLe d x
    · rw [if_pos h]
      rcases listMax_mem xs x with h2 | h2
      · exact Or.inr (by rw [h2]; exact List.mem_cons_self _ _)
      · exact Or.inr (List.mem_cons_of_mem _ h2)
    · rw [if_neg h]
      rcases listMax_mem xs d with h2 | h2
      · exact Or.inl h2
      · exact Or.inr (List.mem_cons_of_mem _ h2)

lemma le_listMax_init : ∀ (l : List String) (d : String), strLe d (listMax d l) = true
  | [], d => strLe_refl d
  | x :: xs, d => by
    rw [listMax_cons]
    by_cases h : strLe d x
    · rw [if_pos h]
      exact strLe_trans h (le_listMax_init xs x)
    · rw [if_neg h]
      exact le_listMax_init xs d

lemma le_listMax_mem : ∀ (l : List String) (d x : String), x ∈ l → strLe x (listMax d l) = true
  | [], _, _, hx => by simp at hx
  | y :: ys, d, x, hx => by
    rw [listMax_cons]
    rcases List.mem_cons.mp hx with rfl | hx
    · by_cases h : strLe d x
      · rw [if_pos h]
        exact le_listMax_init ys x
      · rw [if_neg h]
        rcases strLe_total d x with h2 | h2
        · exact absurd h2 h
        · exact strLe_trans h2 (le_listMax_init ys d)
    · by_cases h : strLe d y
      · rw [if_pos h]
        exact le_listMax_mem ys y x hx
      · rw [if_neg h]
        exact le_listMax_mem ys d x hx

/-- If every `Date_Loaded` is `t1` or `t2`, some row carries `t2`, and
`t1 ≤ t2` strictly, then `MAX(Date_Loaded)` is `t2`. -/
lemma maxDateLoaded_eq_of {store : List Row} {t1 t2 : String}
    (h2 : ∃ r ∈ store, r.dateLoaded = t2)
    (hall : ∀ r ∈ store, r.dateLoaded = t1 ∨ r.dateLoaded = t2)
    (hle : strLe t1 t2 = true) (hne : t1 ≠ t2) : maxDateLoaded store = some t2 := by
  cases store with
  | nil => simp at h2
  | cons r rs =>
    simp only [maxDateLoaded, List.map_cons]
    set m := listMax r.dateLoaded (rs.map fun r => r.dateLoaded) with hm
    have hmem : m = r.dateLoaded ∨ m ∈ rs.map fun r => r.dateLoaded :=
      listMax_mem (rs.map fun r => r.dateLoaded) r.dateLoaded
    have hm12 : m = t1 ∨ m = t2 := by
      rcases hmem with h | h
      · exact h ▸ hall r (List.mem_cons_self _ _)
      · obtain ⟨r', hr', hr2⟩ := List.mem_map.mp h
        exact hr2 ▸ hall r' (List.mem_cons_of_mem _ hr')
    have ht2m : strLe t2 m = true := by
      obtain ⟨r2, hr2, hdate⟩ := h2
      rcases List.mem_cons.mp hr2 with rfl | hr2
      · exact hdate ▸ le_listMax_init _ _
      · exact le_listMax_mem _ _ _ (hdate ▸ List.mem_map_of_mem (fun r => r.dateLoaded) hr2)
    rcases hm12 with rfl | rfl
    · exact absurd (strLe_antisymm hle ht2m) hne
    · rfl

/-! ## Store Writer (`save_data_to_sqlite`, lines 67-87)

The Python function opens a SQLite connection, buffers the batch into the
connection's transaction with `df.to_sql(..., if_exists='append')`, commits
on success, and on any exception rolls the transaction back, reports the
error and returns `False`. -/

/-- An open SQLite connection: rows already durably committed plus rows
buffered in the current (uncommitted) transaction. -/
structure Conn where
  committed : List Row
  pending : List Row

/-- `sqlite3.connect(db_path)` (line 75): fresh connection over the durable
store, empty transaction. -/
def sqliteConnect (store : List Row) : Conn := ⟨store, []⟩

/-- `df.to_sql(tbl_name, conn, if_exists='append', index=False)` (line 76):
buffers the batch in the transaction.  `failAfter = some k` injects the
exception path after `k` rows were already buffered (disk/schema error);
`none` is the success path.  The second component tells whether the call
returned normally. -/
def toSqlAppend (batch : List Row) (c : Conn) (failAfter : Option Nat) : Conn × Bool :=
  match failAfter with
  | none => (⟨c.committed, c.pending ++ batch⟩, true)
  | some k => (⟨c.committed, c.pending ++ batch.take k⟩, false)

/-- `conn.commit()` (line 77): publishes the transaction's rows durably. -/
def connCommit (c : Conn) : Conn := ⟨c.committed ++ c.pending, []⟩

/-- `conn.rollback()` (line 85): discards the transaction's rows. -/
def connRollback (c : Conn) : Conn := ⟨c.committed, []⟩

/-- `save_data_to_sqlite(df, db_path, tbl_name)` (lines 67-87).  Input
`none` models `df is None`.  Returns the durable store after the call
together with the function's boolean return value. -/
def save_data_to_sqlite (df : Option (List Row)) (store : List Row) (failAfter : Option Nat) :
    List Row × Bool :=
  match df with
  | none => (store, false)
  | some batch =>
    if batch.isEmpty then (store, false)
    else
      let conn := sqliteConnect store
      match toSqlAppend batch conn failAfter with
      | (c2, true) => ((connCommit c2).committed, true)
      | (c2, false) => ((connRollback c2).committed, false)

lemma save_ok {batch : List Row} (store : List Row) (h : batch ≠ []) :
    save_data_to_sqlite (some batch) store none = (store ++ batch, true) := by
  simp [save_data_to_sqlite, h, sqliteConnect, toSqlAppend, connCommit]

/-- C5: a successful append never alters or deletes existing rows — the
store after the call is exactly the old store with the batch appended; and
appending batch `b1` then batch `b2` to an empty store yields `|b1| + |b2|`
rows whose `MAX(Date_Loaded)` is `b2`'s tag, provided `b2` loaded strictly
after `b1`. -/
theorem save_append_spec :
    (∀ (store batch : List Row), batch ≠ [] →
        save_data_to_sqlite (some batch) store none = (store ++ batch, true)) ∧
    (∀ (b1 b2 : List Row) (t1 t2 : String), b1 ≠ [] → b2 ≠ [] →
        (∀ r ∈ b1, r.dateLoaded = t1) → (∀ r ∈ b2, r.dateLoaded = t2) →
        strLe t1 t2 = true → t1 ≠ t2 →
        (save_data_to_sqlite (some b2) (save_data_to_sqlite (some b1) [] none).1 none).1.length
            = b1.length + b2.length ∧
        maxDateLoaded
            (save_data_to_sqlite (some b2) (save_data_to_sqlite (some b1) [] none).1 none).1
            = some t2) := by
  refine ⟨fun store batch h => save_ok store h, ?_⟩
  intro b1 b2 t1 t2 h1 h2 ht1 ht2 hle hne
  rw [save_ok [] h1, save_ok ([] ++ b1) h2]
  constructor
  · simp
  · refine maxDateLoaded_eq_of ?_ ?_ hle hne
    · obtain ⟨r, hr⟩ := List.exists_mem_of_ne_nil b2 h2
      exact ⟨r, by simp [hr], ht2 r hr⟩
    · intro r hr
      simp only [List.nil_append, List.mem_append] at hr
      rcases hr with hr | hr
      · exact Or.inl (ht1 r hr)
      · exact Or.inr (ht2 r hr)

/-- Concrete rows used in the spec's two-snapshot scenario. -/
def row50 : Row := ⟨"Fund A", "Flexi Cap", 50, 1, "2024-01-01 10:00:00"⟩

def row150 : Row := ⟨"Fund B", "Flexi Cap", 150, 1, "2024-01-01 10:00:00"⟩

def row60 : Row := ⟨"Fund C", "Flexi Cap", 60, 1, "2024-01-02 10:00:00"⟩

def row140 : Row := ⟨"Fund D", "Flexi Cap", 140, 1, "2024-01-02 10:00:00"⟩

/-- Witness for C5: two concrete two-row batches tagged one day apart. -/
theorem save_append_spec_witness :
    (save_data_to_sqlite (some [row60, row140])
        (save_data_to_sqlite (some [row50, row150]) [] none).1 none).1.length = 2 + 2 ∧
    maxDateLoaded
        (save_data_to_sqlite (some [row60, row140])
          (save_data_to_sqlite (some [row50, row150]) [] none).1 none).1
        = some "2024-01-02 10:00:00" :=
  save_append_spec.2 [row50, row150] [row60, row140]
    "2024-01-01 10:00:00" "2024-01-02 10:00:00"
    (by decide) (by decide) (by decide) (by decide) (by decide) (by decide)

/-- C6: the append is atomic with respect to failure.  Whenever the write
raises — even after `k` rows were already buffered in the transaction — the
rollback leaves the durable store exactly as it was, and the caller gets
`False`, never partial success. -/
theorem save_atomic_on_failure (store : List Row) (df : Option (List Row)) (k : Nat) :
    save_data_to_sqlite df store (some k) = (store, false) := by
  cases df with
  | none => rfl
  | some batch =>
    by_cases h : batch.isEmpty
    · simp [save_data_to_sqlite, h]
    · simp [save_data_to_sqlite, h, sqliteConnect, toSqlAppend, connRollback]

/-! ## Store Reader (`query_data_from_sqlite`, lines 89-111) -/

/-- `query_data_from_sqlite(db_path, query, params)` (lines 89-111).
`dbExists` models `os.path.exists(db_path)`; `exec` models the outcome of
`pd.read_sql_query` (a full table, or a raised error such as a malformed
query or missing column).  Returns the function's return value (`some`
table or `None`) together with the error messages logged via
`status_update`. -/
def query_data_from_sqlite (dbExists : Bool) (exec : Except String (List Row)) :
    Option (List Row) × List String :=
  if dbExists = false then (none, ["Error: Database file not found."])
  else
    match exec with
    | Except.error e => (none, ["Error querying DB: " ++ e])
    | Except.ok t => (some t, [])

/-- C7 counterexample: a missing store file and a failing query both return
the very same value `none` to the caller — the two failure classes are not
distinguishable from the function's result. -/
theorem query_failure_indistinguishable :
    (query_data_from_sqlite false (Except.ok [])).1
        = (query_data_from_sqlite true (Except.error "no such column: AUM")).1 ∧
    (query_data_from_sqlite false (Except.ok [])).1 = none :=
  ⟨rfl, rfl⟩

/-- C7 amended: every failure (missing store file, or any execution error)
returns no rows (`none`) — never a truncated table — and the underlying
cause is propagated only into the logged status message, which is the sole
place the two failure classes differ; a successful execution returns the
full table with nothing logged. -/
theorem query_data_failure_spec :
    (∀ exec, query_data_from_sqlite false exec = (none, ["Error: Database file not found."])) ∧
    (∀ e, query_data_from_sqlite true (Except.error e)
        = (none, ["Error querying DB: " ++ e])) ∧
    (∀ t, query_data_from_sqlite true (Except.ok t) = (some t, [])) :=
  ⟨fun _ => rfl, fun _ => rfl, fun _ => rfl⟩

/-! ## Snapshot Tagger (`load_mutual_fund_data_from_excel`, lines 57-60)

    load_time = datetime.now().strftime("%Y-%m-%d %H:%M:%S")
    df['Date_Loaded'] = load_time
-/

/-- A wall-clock instant at second precision. -/
structure DateTime where
  year : Nat
  month : Nat
  day : Nat
  hour : Nat
  minute : Nat
  second : Nat

/-- Field ranges an actual `datetime.now()` value satisfies. -/
def validDateTime (t : DateTime) : Prop :=
  t.year ≤ 9999 ∧ 1 ≤ t.month ∧ t.month ≤ 12 ∧ 1 ≤ t.day ∧ t.day ≤ 31 ∧
    t.hour ≤ 23 ∧ t.minute ≤ 59 ∧ t.second ≤ 59

instance : DecidablePred validDateTime := fun t => by
  unfold validDateTime
  infer_instance

/-- Two-digit zero-padded rendering (`%m`, `%d`, `%H`, `%M`, `%S`). -/
def pad2 (n : Nat) : String := String.mk [Nat.digitChar (n / 10 % 10), Nat.digitChar (n % 10)]

/-- Four-digit zero-padded rendering (`%Y`). -/
def pad4 (n : Nat) : String :=
  String.mk [Nat.digitChar (n / 1000 % 10), Nat.digitChar (n / 100 % 10),
    Nat.digitChar (n / 10 % 10), Nat.digitChar (n % 10)]

/-- Models the library call `datetime.now().strftime("%Y-%m-%d %H:%M:%S")`
(line 58): the zero-padded second-precision rendering of the wall-clock
time.  The repository's own contribution is the format string; the
rendering itself is standard `strftime` behaviour. -/
def strftimeSeconds (t : DateTime) : String :=
  pad4 t.year ++ "-" ++ pad2 t.month ++ "-" ++ pad2 t.day ++ " " ++ pad2 t.hour ++ ":" ++
    pad2 t.minute ++ ":" ++ pad2 t.second

/-- `df['Date_Loaded'] = load_time` (line 59): every record of the batch
gets the same added `Date_Loaded` attribute; the record itself (all its
other attributes) is untouched. -/
def tagBatch {α : Type} (loadTime : String) (batch : List α) : List (α × String) :=
  batch.map (fun r => (r, loadTime))

/-- Lines 57-60 of the loader: stamp the freshly-loaded batch. -/
def addDateLoaded {α : Type} (now : DateTime) (batch : List α) : List (α × String) :=
  tagBatch (strftimeSeconds now) batch

/-- The string has the exact shape `YYYY-MM-DD HH:MM:SS`: length 19, the
separators at their fixed positions, digits everywhere else. -/
def timestampShaped (s : String) : Prop :=
  s.data.length = 19 ∧
  s.data[4]? = some '-' ∧ s.data[7]? = some '-' ∧ s.data[10]? = some ' ' ∧
  s.data[13]? = some ':' ∧ s.data[16]? = some ':' ∧
  ∀ i ∈ ([0, 1, 2, 3, 5, 6, 8, 9, 11, 12, 14, 15, 17, 18] : List Nat),
    ∀ c, s.data[i]? = some c → c.isDigit = true

lemma isDigit_digitChar {d : Nat} (h : d < 10) : (Nat.digitChar d).isDigit = true := by
  interval_cases d <;> decide

lemma strftimeSeconds_data (t : DateTime) :
    (strftimeSeconds t).data =
      [Nat.digitChar (t.year / 1000 % 10), Nat.digitChar (t.year / 100 % 10),
       Nat.digitChar (t.year / 10 % 10), Nat.digitChar (t.year % 10), '-',
       Nat.digitChar (t.month / 10 % 10), Nat.digitChar (t.month % 10), '-',
       Nat.digitChar (t.day / 10 % 10), Nat.digitChar (t.day % 10), ' ',
       Nat.digitChar (t.hour / 10 % 10), Nat.digitChar (t.hour % 10), ':',
       Nat.digitChar (t.minute / 10 % 10), Nat.digitChar (t.minute % 10), ':',
       Nat.digitChar (t.second / 10 % 10), Nat.digitChar (t.second % 10)] := rfl

lemma timestampShaped_strftimeSeconds (t : DateTime) : timestampShaped (strftimeSeconds t) := by
  unfold timestampShaped
  rw [strftimeSeconds_data]
  refine ⟨rfl, rfl, rfl, rfl, rfl, rfl, ?_⟩
  intro i hi c hc
  have h10 : (0 : Nat) < 10 := by norm_num
  fin_cases hi <;>
    (simp only [List.getElem?_cons_zero, List.getElem?_cons_succ, Option.some.injEq] at hc ;
     rw [← hc] ; exact isDigit_digitChar (Nat.mod_lt _ h10))

/-- C9: one `strftime`-formatted wall-clock timestamp (`YYYY-MM-DD
HH:MM:SS`, second precision) is attached as the added `Date_Loaded`
attribute to every record of the batch, every record carries the exact same
value, and nothing else about the records changes. -/
theorem tagger_spec {α : Type} (now : DateTime) (batch : List α) (_hv : validDateTime now) :
    timestampShaped (strftimeSeconds now) ∧
    (addDateLoaded now batch).length = batch.length ∧
    (∀ p ∈ addDateLoaded now batch, p.2 = strftimeSeconds now) ∧
    (addDateLoaded now batch).map Prod.fst = batch := by
  refine ⟨timestampShaped_strftimeSeconds now, List.length_map _ _, ?_, ?_⟩
  · intro p hp
    obtain ⟨x, _, rfl⟩ := List.mem_map.mp hp
    rfl
  · unfold addDateLoaded tagBatch
    rw [List.map_map]
    exact List.map_id batch

/-- Witness for C9 at a concrete wall-clock instant and one-record batch. -/
theorem tagger_spec_witness :
    validDateTime ⟨2025, 1, 15, 10, 30, 0⟩ ∧
    (addDateLoaded ⟨2025, 1, 15, 10, 30, 0⟩ ["Alpha Fund"]).map Prod.fst = ["Alpha Fund"] :=
  ⟨by decide, (tagger_spec ⟨2025, 1, 15, 10, 30, 0⟩ ["Alpha Fund"] (by decide)).2.2.2⟩

/-! ## Query Builder (`display_ranked_data`, lines 178-232) -/

/-- A bound SQL parameter: a string (the `Sub_Category` filter) or a number
(a `float` AUM / expense-ratio bound). -/
inductive SQLValue where
  | str (s : String)
  | num (q : ℚ)
  deriving DecidableEq

/-- The GUI's filter inputs after numeric conversion (lines 180-198):
`selectedCategory` is the category combobox text; each numeric bound is
`none` when its entry was left empty. -/
structure FilterSpec where
  selectedCategory : String
  minAum : Option ℚ
  maxAum : Option ℚ
  minExp : Option ℚ
  maxExp : Option ℚ
  deriving DecidableEq

/-- Line 213: the category filter applies when a category is selected and it
is not the `"All Categories"` wildcard. -/
def categoryActive (fs : FilterSpec) : Bool :=
  fs.selectedCategory != "" && fs.selectedCategory != "All Categories"

def table_name : String := "mutual_funds"

def columns_to_select : String :=
  "Name, Sub_Category, AUM, NAV, Expense_Ratio, CAGR_3Y, CAGR_5Y, " ++
    "Absolute_Returns_1Y, Sharpe_Ratio, Alpha, Date_Loaded"

/-- Lines 208-209 (the f-string's inner whitespace normalized to single
spaces): the fixed scope clause restricting to the latest snapshot. -/
def base_query : String :=
  " SELECT " ++ columns_to_select ++ " FROM " ++ table_name ++
    " WHERE Date_Loaded = (SELECT MAX(Date_Loaded) FROM " ++ table_name ++ ") "

/-- Lines 206-229: the dynamic query construction.  Each active filter
appends its `AND` clause with a `?` placeholder to the query text and its
value to `params`, in source order (category, min AUM, max AUM, min expense
ratio, max expense ratio); finally the `ORDER BY ... LIMIT 100` tail is
appended. -/
def buildQuery (fs : FilterSpec) (rankingCol sortOrder : String) : String × List SQLValue :=
  let qp0 : String × List SQLValue := (base_query, [])
  let qp1 := if categoryActive fs then
      (qp0.1 ++ " AND Sub_Category = ? ", qp0.2 ++ [SQLValue.str fs.selectedCategory])
    else qp0
  let qp2 := match fs.minAum with
    | some v => (qp1.1 ++ " AND AUM >= ? ", qp1.2 ++ [SQLValue.num v])
    | none => qp1
  let qp3 := match fs.maxAum with
    | some v => (qp2.1 ++ " AND AUM <= ? ", qp2.2 ++ [SQLValue.num v])
    | none => qp2
  let qp4 := match fs.minExp with
    | some v => (qp3.1 ++ " AND Expense_Ratio >= ? ", qp3.2 ++ [SQLValue.num v])
    | none => qp3
  let qp5 := match fs.maxExp with
    | some v => (qp4.1 ++ " AND Expense_Ratio <= ? ", qp4.2 ++ [SQLValue.num v])
    | none => qp4
  (qp5.1 ++ " ORDER BY " ++ rankingCol ++ " " ++ sortOrder ++ " LIMIT 100 ", qp5.2)

/-- The query text as a function of only the PRESENCE of each filter and
the ranking pair: a fixed skeleton of literal fragments and `?`
placeholders, `AND`ed in specification order, containing no filter value.
This is the refinement target the builder is compared against. -/
def queryTextSkeleton (hasCat hasMinAum hasMaxAum hasMinExp hasMaxExp : Bool)
    (rankingCol sortOrder : String) : String :=
  base_query ++ (if hasCat then " AND Sub_Category = ? " else "") ++
    (if hasMinAum then " AND AUM >= ? " else "") ++
    (if hasMaxAum then " AND AUM <= ? " else "") ++
    (if hasMinExp then " AND Expense_Ratio >= ? " else "") ++
    (if hasMaxExp then " AND Expense_Ratio <= ? " else "") ++
    " ORDER BY " ++ rankingCol ++ " " ++ sortOrder ++ " LIMIT 100 "

/-- The bound parameters in specification order — category, min AUM, max
AUM, min expense ratio, max expense ratio — each supplied value exactly
once. -/
def specParams (fs : FilterSpec) : List SQLValue :=
  (if categoryActive fs then [SQLValue.str fs.selectedCategory] else []) ++
    (fs.minAum.map SQLValue.num).toList ++ (fs.maxAum.map SQLValue.num).toList ++
    (fs.minExp.map SQLValue.num).toList ++ (fs.maxExp.map SQLValue.num).toList

lemma buildQuery_eq (fs : FilterSpec) (rankingCol sortOrder : String) :
    buildQuery fs rankingCol sortOrder
      = (queryTextSkeleton (categoryActive fs) fs.minAum.isSome fs.maxAum.isSome
          fs.minExp.isSome fs.maxExp.isSome rankingCol sortOrder, specParams fs) := by
  obtain ⟨cat, minA, maxA, minE, maxE⟩ := fs
  by_cases hc : categoryActive ⟨cat, minA, maxA, minE, maxE⟩ <;>
    cases minA <;> cases maxA <;> cases minE <;> cases maxE <;>
      simp [buildQuery, queryTextSkeleton, specParams, hc, String.append_assoc]

/-- C1: the query text the builder produces is a value-free skeleton
determined only by which filters are present (so no filter value literal
ever appears in the text, and the `AND` clauses occur in the fixed
specification order), while every supplied filter value appears exactly
once in the bound-parameter list, in the order category, min AUM, max AUM,
min expense ratio, max expense ratio. -/
theorem buildQuery_parameterized (fs : FilterSpec) (rankingCol sortOrder : String) :
    (buildQuery fs rankingCol sortOrder).1
        = queryTextSkeleton (categoryActive fs) fs.minAum.isSome fs.maxAum.isSome
            fs.minExp.isSome fs.maxExp.isSome rankingCol sortOrder ∧
    (buildQuery fs rankingCol sortOrder).2 = specParams fs := by
  rw [buildQuery_eq]
  exact ⟨rfl, rfl⟩

/-- Lines 19-27: the fixed allow-list mapping ranking label to
(column, direction). -/
def RANKING_OPTIONS : List (String × String × String) :=
  [("Best 3Y CAGR", "CAGR_3Y", "DESC"),
   ("Best 5Y CAGR", "CAGR_5Y", "DESC"),
   ("Best 1Y Return", "Absolute_Returns_1Y", "DESC"),
   ("Lowest Expense Ratio", "Expense_Ratio", "ASC"),
   ("Highest Sharpe Ratio", "Sharpe_Ratio", "DESC"),
   ("Highest Alpha", "Alpha", "DESC"),
   ("Largest AUM", "AUM", "DESC")]

/-- Lines 200-203: `selected_ranking_key not in RANKING_OPTIONS` followed by
`RANKING_OPTIONS[selected_ranking_key]`.  An empty key is also rejected
(`not selected_ranking_key`), and indeed no allow-list label is empty. -/
def lookupRanking (key : String) : Option (String × String) :=
  (RANKING_OPTIONS.find? (fun e => e.1 == key)).map (fun e => e.2)

/-- The query-construction part of `display_ranked_data` (lines 200-229):
an unrecognized ranking key is rejected before any query text is built;
otherwise the parameterized query is built with the allow-listed ORDER BY
column and direction. -/
def display_ranked_data_query (key : String) (fs : FilterSpec) :
    Option (String × List SQLValue) :=
  match lookupRanking key with
  | none => none
  | some cd => some (buildQuery fs cd.1 cd.2)

/-- C10: whenever the filtered/ranked path constructs a query, the ORDER BY
column and sort direction interpolated into the text come from the fixed
seven-entry allow-list, keyed by the user's ranking label (whose membership
was checked before construction); the rest of the text is the value-free
skeleton, so no free-form user string reaches the query text
unparameterized.  A key outside the allow-list builds no query at all. -/
theorem orderBy_from_allowlist :
    (∀ (key : String) (fs : FilterSpec) (q : String) (ps : List SQLValue),
        display_ranked_data_query key fs = some (q, ps) →
          ∃ col dir, (key, col, dir) ∈ RANKING_OPTIONS ∧
            q = queryTextSkeleton (categoryActive fs) fs.minAum.isSome fs.maxAum.isSome
                  fs.minExp.isSome fs.maxExp.isSome col dir) ∧
    (∀ (key : String) (fs : FilterSpec), lookupRanking key = none →
        display_ranked_data_query key fs = none) := by
  constructor
  · intro key fs q ps h
    unfold display_ranked_data_query at h
    cases hlk : lookupRanking key with
    | none => rw [hlk] at h; exact absurd h (by simp)
    | some cd =>
      rw [hlk] at h
      obtain ⟨e, he, hcd⟩ := Option.map_eq_some'.mp hlk
      have hkey : e.1 = key := by
        have := List.find?_some he
        simpa using this
      refine ⟨cd.1, cd.2, ?_, ?_⟩
      · have hmem := List.mem_of_find?_eq_some he
        have : (key, cd.1, cd.2) = e := by
          rw [← hkey, ← hcd]
        rw [this]
        exact hmem
      · have hq : q = (buildQuery fs cd.1 cd.2).1 := by
          injection h with h'
          rw [h']
        rw [hq, buildQuery_eq]
  · intro key fs h
    unfold display_ranked_data_query
    rw [h]

/-- The all-defaults filter specification: wildcard category, no bounds. -/
def fsNone : FilterSpec := ⟨"All Categories", none, none, none, none⟩

/-- Witness for C10 at the concrete ranking key `"Largest AUM"`. -/
theorem orderBy_from_allowlist_witness :
    ∃ col dir, ("Largest AUM", col, dir) ∈ RANKING_OPTIONS ∧
      (buildQuery fsNone "AUM" "DESC").1
        = queryTextSkeleton (categoryActive fsNone) fsNone.minAum.isSome fsNone.maxAum.isSome
            fsNone.minExp.isSome fsNone.maxExp.isSome col dir :=
  orderBy_from_allowlist.1 "Largest AUM" fsNone (buildQuery fsNone "AUM" "DESC").1
    (buildQuery fsNone "AUM" "DESC").2 rfl

/-! ## Query semantics over the store

Relational semantics of the query `display_ranked_data` builds (lines
208-229): restrict to rows whose `Date_Loaded` equals `MAX(Date_Loaded)`
over the whole store, apply the `AND`ed filters, order by the ranking
column, cap at 100 rows. -/

/-- The conjunction of the `AND` filter clauses (lines 213-227); SQL
`>=`/`<=` are inclusive bounds. -/
def matchesFilters (fs : FilterSpec) (r : Row) : Bool :=
  (!(categoryActive fs) || r.subCategory == fs.selectedCategory) &&
    (match fs.minAum with | some v => decide (v ≤ r.aum) | none => true) &&
    (match fs.maxAum with | some v => decide (r.aum ≤ v) | none => true) &&
    (match fs.minExp with | some v => decide (v ≤ r.expense) | none => true) &&
    (match fs.maxExp with | some v => decide (r.expense ≤ v) | none => true)

/-- `WHERE Date_Loaded = (SELECT MAX(Date_Loaded) FROM mutual_funds)`. -/
def latestRows (store : List Row) : List Row :=
  match maxDateLoaded store with
  | none => []
  | some t => store.filter (fun r => r.dateLoaded == t)

/-- `ORDER BY <rankingCol> <direction>` on a numeric ranking column,
descending when `desc`. -/
def rankRel (key : Row → ℚ) (desc : Bool) : Row → Row → Prop :=
  fun a b => match desc with
    | true => key b ≤ key a
    | false => key a ≤ key b

instance rankRelDecidable (key : Row → ℚ) : ∀ desc, DecidableRel (rankRel key desc)
  | true => fun a b => inferInstanceAs (Decidable (key b ≤ key a))
  | false => fun a b => inferInstanceAs (Decidable (key a ≤ key b))

/-- The result set of the filtered/ranked query (lines 208-229). -/
def evalRankedQuery (store : List Row) (fs : FilterSpec) (key : Row → ℚ) (desc : Bool) :
    List Row :=
  (((latestRows store).filter (matchesFilters fs)).insertionSort (rankRel key desc)).take 100

lemma le_maxDateLoaded {store : List Row} {t : String} (h : maxDateLoaded store = some t) :
    ∀ r ∈ store, strLe r.dateLoaded t = true := by
  cases store with
  | nil => simp [maxDateLoaded] at h
  | cons r0 rs =>
    simp only [maxDateLoaded, List.map_cons, Option.some.injEq] at h
    intro r hr
    rcases List.mem_cons.mp hr with rfl | hr
    · rw [← h]
      exact le_listMax_init _ _
    · rw [← h]
      exact le_listMax_mem _ _ _ (List.mem_map_of_mem _ hr)

/-- C2 counterexample: in the spec's concrete scenario — snapshots with AUM
values [50,150] then [60,140] in the same category, filtered with minimum
AUM 55 — the query does NOT return only the 140 row: the 60 row of the
latest snapshot also satisfies `AUM >= 55`, so both are returned (ranked
descending by AUM). -/
theorem latest_snapshot_scenario_counterexample :
    evalRankedQuery [row50, row150, row60, row140]
        ⟨"All Categories", some 55, none, none, none⟩ (fun r => r.aum) true
      = [row140, row60] ∧
    evalRankedQuery [row50, row150, row60, row140]
        ⟨"All Categories", some 55, none, none, none⟩ (fun r => r.aum) true
      ≠ [row140] := by
  constructor <;> decide

/-- C2 amended: every row the filtered/ranked query returns belongs to the
store and carries the maximal `Date_Loaded` — rows of earlier snapshots are
excluded entirely even when they satisfy every filter; in the concrete
scenario (AUM values [50,150] then [60,140] in the same category, minimum
AUM 55) the query returns exactly the snapshot-2 rows 140 and 60 (both
satisfy the bound, ordered descending by AUM), and in particular neither
the 50 nor the 150 row of snapshot 1. -/
theorem latest_snapshot_scope :
    (∀ (store : List Row) (fs : FilterSpec) (key : Row → ℚ) (desc : Bool) (r : Row),
        r ∈ evalRankedQuery store fs key desc →
          r ∈ store ∧ maxDateLoaded store = some r.dateLoaded ∧
            ∀ r' ∈ store, strLe r'.dateLoaded r.dateLoaded = true) ∧
    evalRankedQuery [row50, row150, row60, row140]
        ⟨"All Categories", some 55, none, none, none⟩ (fun r => r.aum) true
      = [row140, row60] := by
  constructor
  · intro store fs key desc r h
    have h1 : r ∈ ((latestRows store).filter (matchesFilters fs)).insertionSort
        (rankRel key desc) := List.take_subset _ _ h
    have h2 : r ∈ (latestRows store).filter (matchesFilters fs) :=
      (List.mem_insertionSort _).mp h1
    have h3 : r ∈ latestRows store := (List.mem_filter.mp h2).1
    unfold latestRows at h3
    cases hmax : maxDateLoaded store with
    | none => rw [hmax] at h3; simp at h3
    | some t =>
      rw [hmax] at h3
      have h4 := List.mem_filter.mp h3
      have h5 : r.dateLoaded = t := by simpa using h4.2
      subst h5
      exact ⟨h4.1, rfl, le_maxDateLoaded hmax⟩
  · decide

/-- Witness for C2 at the scenario store and the returned 140 row. -/
theorem latest_snapshot_scope_witness :
    row140 ∈ evalRankedQuery [row50, row150, row60, row140]
        ⟨"All Categories", some 55, none, none, none⟩ (fun r => r.aum) true ∧
    (row140 ∈ [row50, row150, row60, row140] ∧
      maxDateLoaded [row50, row150, row60, row140] = some row140.dateLoaded ∧
      ∀ r' ∈ [row50, row150, row60, row140], strLe r'.dateLoaded row140.dateLoaded = true) :=
  ⟨by decide, latest_snapshot_scope.1 [row50, row150, row60, row140]
    ⟨"All Categories", some 55, none, none, none⟩ (fun r => r.aum) true row140 (by decide)⟩

/-! ## Aggregator (`show_category_chart`, lines 113-135) -/

/-- The descending-count order of `ORDER BY Count DESC`. -/
def countGe : (String × Nat) → (String × Nat) → Prop := fun a b => b.2 ≤ a.2

instance : DecidableRel countGe := fun a b => inferInstanceAs (Decidable (b.2 ≤ a.2))

instance : IsTotal (String × Nat) countGe := ⟨fun a b => Nat.le_total b.2 a.2⟩

instance : IsTrans (String × Nat) countGe := ⟨fun _ _ _ h1 h2 => le_trans h2 h1⟩

/-- `SELECT Sub_Category, COUNT(*) as Count ... GROUP BY Sub_Category ORDER
BY Count DESC LIMIT 15` (lines 126-129) over the given rows: one group per
distinct category (first-occurrence order, stably sorted by descending
count), capped at 15 groups. -/
def categoryCounts (rows : List Row) : List (String × Nat) :=
  (((rows.map (fun r => r.subCategory)).dedup.map
      (fun c => (c, (rows.filter (fun r => r.subCategory == c)).length))).insertionSort
    countGe).take 15

/-- What the chart operation surfaces: an error dialog, an informational
dialog, or the charted count table. -/
inductive ChartOutcome where
  | error (msg : String)
  | info (msg : String)
  | chart (counts : List (String × Nat))
  deriving DecidableEq

/-- `show_category_chart` (lines 113-135): find `MAX(Date_Loaded)` (error
dialog when it cannot be determined — in particular on an empty store),
query the category counts for that timestamp, chart them (info dialog if
the count table came back empty). -/
def show_category_chart (store : List Row) : ChartOutcome :=
  match maxDateLoaded store with
  | none => ChartOutcome.error "Could not determine the latest data load time."
  | some t =>
    let counts := categoryCounts (store.filter (fun r => r.dateLoaded == t))
    if counts.isEmpty then ChartOutcome.info "No category data found for the latest timestamp."
    else ChartOutcome.chart counts

/-- C8 counterexample: on the empty store — the only store state whose
latest snapshot has zero rows — the aggregation path reports an error
dialog, not an empty table. -/
theorem show_category_chart_empty_store :
    show_category_chart []
      = ChartOutcome.error "Could not determine the latest data load time." := rfl

lemma exists_row_of_maxDateLoaded {store : List Row} {t : String}
    (h : maxDateLoaded store = some t) : ∃ r ∈ store, r.dateLoaded = t := by
  cases store with
  | nil => simp [maxDateLoaded] at h
  | cons r0 rs =>
    simp only [maxDateLoaded, List.map_cons, Option.some.injEq] at h
    rcases listMax_mem (rs.map fun r => r.dateLoaded) r0.dateLoaded with h2 | h2
    · exact ⟨r0, List.mem_cons_self _ _, by rw [← h, h2]⟩
    · obtain ⟨r, hr, hr2⟩ := List.mem_map.mp h2
      exact ⟨r, List.mem_cons_of_mem _ hr, by rw [← h, hr2]⟩

/-- C8 amended: for every nonempty store the aggregation charts the
category counts of the latest snapshot — one group per category, counted,
sorted descending by count, at most 15 groups; on the empty store (the only
state whose latest snapshot has zero rows) the operation reports an error,
not an empty table. -/
theorem show_category_chart_spec (store : List Row) (h : store ≠ []) :
    ∃ t, maxDateLoaded store = some t ∧
      show_category_chart store
          = ChartOutcome.chart (categoryCounts (store.filter (fun r => r.dateLoaded == t))) ∧
      (categoryCounts (store.filter (fun r => r.dateLoaded == t))).length ≤ 15 ∧
      List.Sorted countGe (categoryCounts (store.filter (fun r => r.dateLoaded == t))) ∧
      (∀ p ∈ categoryCounts (store.filter (fun r => r.dateLoaded == t)),
        p.2 = ((store.filter (fun r => r.dateLoaded == t)).filter
            (fun r => r.subCategory == p.1)).length ∧
          p.1 ∈ (store.filter (fun r => r.dateLoaded == t)).map (fun r => r.subCategory)) := by
  obtain ⟨t, ht⟩ : ∃ t, maxDateLoaded store = some t := by
    cases store with
    | nil => exact absurd rfl h
    | cons r0 rs => exact ⟨_, rfl⟩
  have hrow : ∃ r ∈ store, r.dateLoaded = t := exists_row_of_maxDateLoaded ht
  have hfilter : store.filter (fun r => r.dateLoaded == t) ≠ [] := by
    obtain ⟨r, hr, hrt⟩ := hrow
    intro hnil
    have : r ∈ store.filter (fun r => r.dateLoaded == t) :=
      List.mem_filter.mpr ⟨hr, by simp [hrt]⟩
    rw [hnil] at this
    simp at this
  have hcne : categoryCounts (store.filter (fun r => r.dateLoaded == t)) ≠ [] := by
    unfold categoryCounts
    intro hnil
    rcases (List.take_eq_nil_iff).mp hnil with h15 | hsort
    · exact absurd h15 (by norm_num)
    · have hlen := congrArg List.length hsort
      rw [(List.perm_insertionSort countGe _).length_eq] at hlen
      simp only [List.length_map, List.length_nil] at hlen
      rw [List.length_eq_zero, List.dedup_eq_nil, List.map_eq_nil_iff] at hlen
      exact hfilter hlen
  refine ⟨t, ht, ?_, ?_, ?_, ?_⟩
  · unfold show_category_chart
    rw [ht]
    simp only [List.isEmpty_iff]
    rw [if_neg hcne]
  · exact List.length_take_le _ _
  · exact List.Pairwise.sublist (List.take_sublist _ _)
      (List.sorted_insertionSort countGe _)
  · intro p hp
    have h1 : p ∈ ((store.filter (fun r => r.dateLoaded == t)).map
        (fun r => r.subCategory)).dedup.map
        (fun c => (c, ((store.filter (fun r => r.dateLoaded == t)).filter
          (fun r => r.subCategory == c)).length)) :=
      (List.mem_insertionSort _).mp (List.take_subset _ _ hp)
    obtain ⟨c, hc, rfl⟩ := List.mem_map.mp h1
    exact ⟨rfl, List.mem_dedup.mp hc⟩

/-- Witness for C8 at a concrete nonempty store. -/
theorem show_category_chart_spec_witness :
    ([row60, row140] : List Row) ≠ [] ∧
    ∃ t, maxDateLoaded [row60, row140] = some t ∧
      show_category_chart [row60, row140]
          = ChartOutcome.chart
              (categoryCounts (([row60, row140] : List Row).filter
                (fun r => r.dateLoaded == t))) ∧
      (categoryCounts (([row60, row140] : List Row).filter
          (fun r => r.dateLoaded == t))).length ≤ 15 ∧
      List.Sorted countGe (categoryCounts (([row60, row140] : List Row).filter
          (fun r => r.dateLoaded == t))) ∧
      (∀ p ∈ categoryCounts (([row60, row140] : List Row).filter
          (fun r => r.dateLoaded == t)),
        p.2 = ((([row60, row140] : List Row).filter (fun r => r.dateLoaded == t)).filter
            (fun r => r.subCategory == p.1)).length ∧
          p.1 ∈ (([row60, row140] : List Row).filter (fun r => r.dateLoaded == t)).map
            (fun r => r.subCategory)) :=
  ⟨by decide, show_category_chart_spec [row60, row140] (by decide)⟩

end MFAnalyzer
